import Mathlib

/-
Verification of the image-optimizer pipeline (lib/basics.js, lib/optimize.js).

Shallow embedding:
* File contents are abstract `Bytes` terms; the filesystem is an association
  list from paths to contents (`FS`), newest entry first.
* The image codec is an environment `Env`: `byteSize` gives the on-disk size
  of a contents term (used by `fs.stat`), `pixelDims` gives the decoded
  dimensions of a contents term (`sharp(data).metadata()`), `none` when the
  bytes are not decodable.
* Each stage function returns `Except Err (result × FS × List Event)`; the
  event list is the stage's trace of filesystem/codec effects, in order.
  A JS exception is `Except.error`.  In every stage of the source all throw
  sites precede the stage's first write, so an erroring stage leaves the
  filesystem as it found it; the embedding's error results carry no state.
* JS numbers that the source compares and divides (sizes, bounds, quality
  budgets) are modelled as `ℚ`; qualities and byte sizes are `Nat`.
  `calculateOptimalDimensionsCore` models the JS arithmetic exactly for
  nonzero width/height (JS float division by zero yields Infinity, which the
  rational model does not represent; no theorem below evaluates it there).
-/

deriving instance DecidableEq for Except

namespace ImgOpt

/-- Error kinds of the library: argument-validation failures, unrecognized
image extensions, and filesystem/codec failures. -/
inductive Err where
  | invalidArg
  | notAnImage
  | ioFailure
deriving DecidableEq

/-- Abstract file contents: an original file's bytes, a JPEG re-encode of
some bytes at a quality level (chroma subsampling fixed at 4:4:4 throughout
the source), or a resize of some bytes to given dimensions. -/
inductive Bytes where
  | fileB (id : Nat)
  | jpegEnc (src : Bytes) (quality : Nat)
  | resizedB (src : Bytes) (w h : Int)
deriving DecidableEq

/-- Trace events recording the effects a stage performs, in source order. -/
inductive Event where
  | readF (p : String)
  | writeF (p : String)
  | statF (p : String)
  | encode (src : Bytes) (quality : Nat)
  | unlinkF (p : String)
deriving DecidableEq

/-- The filesystem: paths mapped to contents, newest entry first. -/
abbrev FS := List (String × Bytes)

/-- Look a path up (the newest entry wins). -/
def fsLookup (fs : FS) (p : String) : Option Bytes :=
  (fs.find? (fun e => e.1 == p)).map (fun e => e.2)

/-- `fs.writeFile`/`toFile`: create or overwrite a file. -/
def fsWrite (fs : FS) (p : String) (b : Bytes) : FS :=
  (p, b) :: fs

/-- Remove every entry for a path. -/
def fsErase (fs : FS) (p : String) : FS :=
  fs.filter (fun e => e.1 != p)

/-- `fs.unlink`: fails on a missing file. -/
def fsUnlinkE (fs : FS) (p : String) : Except Err FS :=
  match fsLookup fs p with
  | some _ => Except.ok (fsErase fs p)
  | none => Except.error Err.ioFailure

/-- `fs.rename(oldP, newP)`: fails when the source is missing. -/
def fsRenameE (fs : FS) (oldP newP : String) : Except Err FS :=
  match fsLookup fs oldP with
  | some b => Except.ok (fsWrite (fsErase fs oldP) newP b)
  | none => Except.error Err.ioFailure

/-- The external codec collaborators (sharp): on-disk size of a contents
term and decoded pixel dimensions (`none` when not decodable). -/
structure Env where
  byteSize : Bytes → Nat
  pixelDims : Bytes → Option (Nat × Nat)

/-- Whether the first list is a prefix of the second (character lists). -/
def startsWithChars : List Char → List Char → Bool
  | [], _ => true
  | _ :: _, [] => false
  | a :: as, b :: bs => if a = b then startsWithChars as bs else false

/-- Replace the first occurrence of `pat` in a character list, as JS
`String.prototype.replace` with a string pattern does. -/
def replaceFirstL (pat repl : List Char) : List Char → List Char
  | [] => []
  | c :: cs =>
    if startsWithChars pat (c :: cs) then repl ++ (c :: cs).drop pat.length
    else c :: replaceFirstL pat repl cs

/-- JS `path.replace(pat, repl)` for plain-string patterns: only the first
occurrence is replaced. -/
def replaceFirstStr (s pat repl : String) : String :=
  String.mk (replaceFirstL pat.data repl.data s.data)

/-- The alternatives of the extension regex `\.(png|svg|jpg|jpeg|gif)` in
the order the regex engine tries them. -/
def extAlts : List String := [".png", ".svg", ".jpg", ".jpeg", ".gif"]

/-- The regex alternative matching at the head of the character list, if
any (alternatives tried in regex order). -/
def matchExtAt (cs : List Char) : Option String :=
  extAlts.find? (fun e => startsWithChars e.data cs)

/-- First match of the extension regex, scanning left to right: the
behaviour of `path.match(/\.(png|svg|jpg|jpeg|gif)/)?.[0]`. -/
def findExtL : List Char → Option String
  | [] => none
  | c :: cs =>
    match matchExtAt (c :: cs) with
    | some e => some e
    | none => findExtL cs

/-- `getFormat` without the throw: the first image-extension match found in
the path, or `none` (`getFormat` throws on `none`). -/
def findExtStr (s : String) : Option String :=
  findExtL s.data

/-- `path.replace('.', '-resized.')` from `resizePreservingAspectRatio`:
the `-resized` marker lands before the FIRST dot of the path. -/
def resizedName (p : String) : String :=
  replaceFirstStr p "." "-resized."

/-- `path.replace('.', '-compressed.')` from `compressJpeg`: the
`-compressed` marker lands before the FIRST dot of the path. -/
def compressedName (p : String) : String :=
  replaceFirstStr p "." "-compressed."

/-- `basics.getImageSize`: `fs.stat(path).size`. -/
def getImageSizeE (env : Env) (fs : FS) (p : String) : Except Err Nat :=
  match fsLookup fs p with
  | some b => Except.ok (env.byteSize b)
  | none => Except.error Err.ioFailure

/-- `basics.getImageDimensions`: read the file and decode its metadata;
fails on a missing file or undecodable bytes. -/
def getImageDimensionsE (env : Env) (fs : FS) (p : String) :
    Except Err (Nat × Nat) :=
  match fsLookup fs p with
  | some b =>
    match env.pixelDims b with
    | some wh => Except.ok wh
    | none => Except.error Err.ioFailure
  | none => Except.error Err.ioFailure

/-- The arithmetic of `calculateOptimalDimensions` after validation:
`k = Math.min(1, maxWidth/width, maxHeight/height)`, output
`{width: Math.floor(width*k), height: Math.floor(height*k)}`. -/
def calculateOptimalDimensionsCore (width height maxWidth maxHeight : ℚ) :
    Int × Int :=
  (⌊width * min 1 (min (maxWidth / width) (maxHeight / height))⌋,
   ⌊height * min 1 (min (maxWidth / width) (maxHeight / height))⌋)

/-- JS primitive values a validated field can hold. -/
inductive JPrim where
  | num (q : ℚ)
  | str (s : String)
  | boolV (b : Bool)
  | undef
deriving DecidableEq

/-- A JS argument as the validator sees it: a primitive or an object whose
fields hold primitives (all the shapes the claims exercise). -/
inductive JVal where
  | prim (p : JPrim)
  | obj (fields : List (String × JPrim))
deriving DecidableEq

/-- JS property access on an object's field list: a missing key reads as
`undefined`. -/
def jget (fields : List (String × JPrim)) (k : String) : JPrim :=
  match fields.find? (fun e => e.1 == k) with
  | some e => e.2
  | none => JPrim.undef

/-- The numeric value of a JS primitive, `none` when it is not a number. -/
def numOf : JPrim → Option ℚ
  | JPrim.num q => some q
  | _ => none

/-- Modelled from the spec: `is.js` is not among the sources; per the spec,
`is.invalidType(name, type, value)` is the cross-cutting validation helper
raising `InvalidArgument` on a "wrong type/shape of an input" — here, a
non-object argument or a field that is not a number.  `calculateOptimalDimensions`
validates both arguments as objects and the four fields as numbers, in
source order, then computes `calculateOptimalDimensionsCore`. -/
def calculateOptimalDimensionsJS (dims maxDims : JVal) : Except Err (Int × Int) :=
  match dims with
  | JVal.obj df =>
    match maxDims with
    | JVal.obj mf =>
      match numOf (jget df "width") with
      | none => Except.error Err.invalidArg
      | some w =>
        match numOf (jget df "height") with
        | none => Except.error Err.invalidArg
        | some h =>
          match numOf (jget mf "maxWidth") with
          | none => Except.error Err.invalidArg
          | some mw =>
            match numOf (jget mf "maxHeight") with
            | none => Except.error Err.invalidArg
            | some mh => Except.ok (calculateOptimalDimensionsCore w h mw mh)
    | JVal.prim _ => Except.error Err.invalidArg
  | JVal.prim _ => Except.error Err.invalidArg

/-- Spec-side predicate (stated from the spec's words, to compare with the
source behaviour): both arguments are objects and the four fields are
numeric values. -/
def wellFormedDims (dims maxDims : JVal) : Bool :=
  match dims, maxDims with
  | JVal.obj df, JVal.obj mf =>
    (numOf (jget df "width")).isSome && (numOf (jget df "height")).isSome &&
    (numOf (jget mf "maxWidth")).isSome && (numOf (jget mf "maxHeight")).isSome
  | _, _ => false

/-- `convertToJpeg(path, autoDelete)`: no-op when the first extension match
is already jpeg/jpg; otherwise read, re-encode at quality 100, write the
path with the matched extension replaced by `.jpeg`, optionally unlink the
original. -/
def convertToJpeg (fs : FS) (path : String) (autoDelete : Bool) :
    Except Err (String × FS × List Event) :=
  match findExtStr path with
  | none => Except.error Err.notAnImage
  | some format =>
    if format = ".jpeg" ∨ format = ".jpg" then Except.ok (path, fs, [])
    else
      match fsLookup fs path with
      | none => Except.error Err.ioFailure
      | some data =>
        if autoDelete then
          match
            fsUnlinkE (fsWrite fs (replaceFirstStr path format ".jpeg")
              (Bytes.jpegEnc data 100)) path with
          | Except.error e => Except.error e
          | Except.ok fs2 =>
            Except.ok (replaceFirstStr path format ".jpeg", fs2,
              [Event.readF path, Event.encode data 100,
               Event.writeF (replaceFirstStr path format ".jpeg"),
               Event.unlinkF path])
        else
          Except.ok (replaceFirstStr path format ".jpeg",
            fsWrite fs (replaceFirstStr path format ".jpeg")
              (Bytes.jpegEnc data 100),
            [Event.readF path, Event.encode data 100,
             Event.writeF (replaceFirstStr path format ".jpeg")])

/-- The path `convertToJpeg` returns for a given input path, when it
returns at all: the pure naming part of the conversion stage. -/
def canonicalJpegName (p : String) : Option String :=
  match findExtStr p with
  | none => none
  | some format =>
    if format = ".jpeg" ∨ format = ".jpg" then some p
    else some (replaceFirstStr p format ".jpeg")

/-- `resizePreservingAspectRatio(path, maxDimensions, autoDelete)`: read
dimensions; no-op when within bounds; otherwise compute target dimensions,
read the file again, write the resized image to the `-resized` path,
optionally unlink the original. -/
def resizePreservingAspectRatio (env : Env) (fs : FS) (path : String)
    (maxWidth maxHeight : ℚ) (autoDelete : Bool) :
    Except Err (String × FS × List Event) :=
  match getImageDimensionsE env fs path with
  | Except.error e => Except.error e
  | Except.ok (w, h) =>
    if (w : ℚ) ≤ maxWidth ∧ (h : ℚ) ≤ maxHeight then
      Except.ok (path, fs, [Event.readF path])
    else
      match fsLookup fs path with
      | none => Except.error Err.ioFailure
      | some data =>
        if autoDelete then
          match
            fsUnlinkE (fsWrite fs (resizedName path)
              (Bytes.resizedB data
                (calculateOptimalDimensionsCore w h maxWidth maxHeight).1
                (calculateOptimalDimensionsCore w h maxWidth maxHeight).2)) path with
          | Except.error e => Except.error e
          | Except.ok fs2 =>
            Except.ok (resizedName path, fs2,
              [Event.readF path, Event.readF path,
               Event.writeF (resizedName path), Event.unlinkF path])
        else
          Except.ok (resizedName path,
            fsWrite fs (resizedName path)
              (Bytes.resizedB data
                (calculateOptimalDimensionsCore w h maxWidth maxHeight).1
                (calculateOptimalDimensionsCore w h maxWidth maxHeight).2),
            [Event.readF path, Event.readF path,
             Event.writeF (resizedName path)])

/-- One iteration's update of the binary-search state `(left, right)`:
`quality = Math.floor((left+right)/2)`; move `left` up to `quality` when
the encode at `quality` is strictly under budget, else move `right` down. -/
def compressStep (env : Env) (data : Bytes) (ms : ℚ) (l r : Nat) : Nat × Nat :=
  if (env.byteSize (Bytes.jpegEnc data ((l + r) / 2)) : ℚ) < ms then
    ((l + r) / 2, r)
  else
    (l, (l + r) / 2)

/-- The `while (right - left > 1)` search of `compressJpeg`: encode the
original bytes at the midpoint quality to `newPath` (overwriting), stat the
written file, and move a boundary.  `fuel` only bounds the iteration count
(the source loop terminates since `right - left` strictly decreases;
`compressLoop_spec` shows fuel `right - left - 1` suffices, and the
fuel-exhaustion branch is unreachable from `compressJpeg`). -/
def compressLoop (env : Env) (data : Bytes) (newPath : String) (ms : ℚ) :
    Nat → FS → Nat → Nat → List Event → Except Err (Nat × FS × List Event)
  | 0, fs, l, r, tr =>
    if 1 < r - l then Except.error Err.ioFailure else Except.ok (l, fs, tr)
  | fuel + 1, fs, l, r, tr =>
    if 1 < r - l then
      match
        getImageSizeE env
          (fsWrite fs newPath (Bytes.jpegEnc data ((l + r) / 2))) newPath with
      | Except.error e => Except.error e
      | Except.ok size =>
        if (size : ℚ) < ms then
          compressLoop env data newPath ms fuel
            (fsWrite fs newPath (Bytes.jpegEnc data ((l + r) / 2)))
            ((l + r) / 2) r
            (tr ++ [Event.encode data ((l + r) / 2),
              Event.writeF newPath, Event.statF newPath])
        else
          compressLoop env data newPath ms fuel
            (fsWrite fs newPath (Bytes.jpegEnc data ((l + r) / 2)))
            l ((l + r) / 2)
            (tr ++ [Event.encode data ((l + r) / 2),
              Event.writeF newPath, Event.statF newPath])
    else Except.ok (l, fs, tr)

/-- `compressJpeg(path, maxSize, autoDelete)`: read the file once, no-op
when the stat size is already within budget, else binary-search the quality
in `[1, 100]`, always re-encode once more at the final `left`, optionally
unlink the original. -/
def compressJpeg (env : Env) (fs : FS) (path : String) (ms : ℚ)
    (autoDelete : Bool) : Except Err (String × FS × List Event) :=
  match fsLookup fs path with
  | none => Except.error Err.ioFailure
  | some data =>
    match getImageSizeE env fs path with
    | Except.error e => Except.error e
    | Except.ok size0 =>
      if (size0 : ℚ) ≤ ms then
        Except.ok (path, fs, [Event.readF path, Event.statF path])
      else
        match
          compressLoop env data (compressedName path) ms 100 fs 1 100
            [Event.readF path, Event.statF path] with
        | Except.error e => Except.error e
        | Except.ok (left, fs1, tr1) =>
          if autoDelete then
            match
              fsUnlinkE (fsWrite fs1 (compressedName path)
                (Bytes.jpegEnc data left)) path with
            | Except.error e => Except.error e
            | Except.ok fs3 =>
              Except.ok (compressedName path, fs3,
                tr1 ++ [Event.encode data left,
                  Event.writeF (compressedName path), Event.unlinkF path])
          else
            Except.ok (compressedName path,
              fsWrite fs1 (compressedName path) (Bytes.jpegEnc data left),
              tr1 ++ [Event.encode data left,
                Event.writeF (compressedName path)])

/-- One item of `optimizeImages`' loop body: convert, resize, compress
(each with auto-delete), then rename the compressed file back to the
canonical jpeg path.  A failure at any stage is caught (`try/catch` with
`continue`): the item yields `none` and the filesystem as the last
successful stage left it (every stage's throw sites precede its writes). -/
def optimizeOne (env : Env) (maxW maxH ms : ℚ) (fs : FS) (path : String) :
    Option String × FS :=
  match convertToJpeg fs path true with
  | Except.error _ => (none, fs)
  | Except.ok (jpegPath, fs1, _) =>
    match resizePreservingAspectRatio env fs1 jpegPath maxW maxH true with
    | Except.error _ => (none, fs1)
    | Except.ok (resizedPath, fs2, _) =>
      match compressJpeg env fs2 resizedPath ms true with
      | Except.error _ => (none, fs2)
      | Except.ok (compressedPath, fs3, _) =>
        match fsRenameE fs3 compressedPath jpegPath with
        | Except.error _ => (none, fs3)
        | Except.ok fs4 => (some jpegPath, fs4)

/-- `optimizeImages(paths, maxMetadata)`: process the items sequentially,
collecting the canonical jpeg paths of the successes; failed items are
skipped.  Total by construction: the batch call never raises. -/
def optimizeImages (env : Env) (maxW maxH ms : ℚ) :
    FS → List String → List String × FS
  | fs, [] => ([], fs)
  | fs, p :: rest =>
    match optimizeOne env maxW maxH ms fs p with
    | (some jp, fs1) =>
      ((jp :: (optimizeImages env maxW maxH ms fs1 rest).1),
       (optimizeImages env maxW maxH ms fs1 rest).2)
    | (none, fs1) => optimizeImages env maxW maxH ms fs1 rest

/-- Spec-side view of the batch run: the per-item outcome (canonical jpeg
path on success, `none` on failure), threading the filesystem exactly as
`optimizeImages` does. -/
def itemOutcomes (env : Env) (maxW maxH ms : ℚ) :
    FS → List String → List (Option String)
  | _, [] => []
  | fs, p :: rest =>
    (optimizeOne env maxW maxH ms fs p).1 ::
      itemOutcomes env maxW maxH ms (optimizeOne env maxW maxH ms fs p).2 rest

/-! ### Basic filesystem lemmas -/

theorem fsLookup_fsWrite_self (fs : FS) (p : String) (b : Bytes) :
    fsLookup (fsWrite fs p b) p = some b := by
  simp [fsLookup, fsWrite, List.find?]

theorem getImageSizeE_write_self (env : Env) (fs : FS) (p : String) (b : Bytes) :
    getImageSizeE env (fsWrite fs p b) p = Except.ok (env.byteSize b) := by
  simp [getImageSizeE, fsLookup_fsWrite_self]

/-! ### Claims C3 and C4: the dimension calculator -/

/-- Claim C3: for positive dimensions and positive bounds, the output of
`calculateOptimalDimensions` is within the bounds on both axes. -/
theorem calculateOptimalDimensions_bound_guarantee (w h mw mh : ℚ)
    (hw : 0 < w) (hh : 0 < h) (hmw : 0 < mw) (hmh : 0 < mh) :
    ((calculateOptimalDimensionsCore w h mw mh).1 : ℚ) ≤ mw ∧
    ((calculateOptimalDimensionsCore w h mw mh).2 : ℚ) ≤ mh := by
  constructor
  · have hk : min 1 (min (mw / w) (mh / h)) ≤ mw / w :=
      le_trans (min_le_right _ _) (min_le_left _ _)
    have h1 : w * min 1 (min (mw / w) (mh / h)) ≤ w * (mw / w) :=
      mul_le_mul_of_nonneg_left hk hw.le
    have h2 : w * (mw / w) = mw := by field_simp
    calc ((calculateOptimalDimensionsCore w h mw mh).1 : ℚ)
        ≤ w * min 1 (min (mw / w) (mh / h)) := Int.floor_le _
      _ ≤ mw := by rw [h2] at h1; exact h1
  · have hk : min 1 (min (mw / w) (mh / h)) ≤ mh / h :=
      le_trans (min_le_right _ _) (min_le_right _ _)
    have h1 : h * min 1 (min (mw / w) (mh / h)) ≤ h * (mh / h) :=
      mul_le_mul_of_nonneg_left hk hh.le
    have h2 : h * (mh / h) = mh := by field_simp
    calc ((calculateOptimalDimensionsCore w h mw mh).2 : ℚ)
        ≤ h * min 1 (min (mw / w) (mh / h)) := Int.floor_le _
      _ ≤ mh := by rw [h2] at h1; exact h1

/-- Witness for C3 at dimensions (3, 2) and bounds (2, 5). -/
theorem calculateOptimalDimensions_bound_guarantee_wit :
    ((calculateOptimalDimensionsCore 3 2 2 5).1 : ℚ) ≤ 2 ∧
    ((calculateOptimalDimensionsCore 3 2 2 5).2 : ℚ) ≤ 5 :=
  calculateOptimalDimensions_bound_guarantee 3 2 2 5
    (by norm_num) (by norm_num) (by norm_num) (by norm_num)

/-- Claim C4: dimensions (positive integers, per the data model) already
within the bounds are returned unchanged. -/
theorem calculateOptimalDimensions_id_under_bounds (w h : ℕ) (mw mh : ℚ)
    (hw : 0 < w) (hh : 0 < h) (hbw : (w : ℚ) ≤ mw) (hbh : (h : ℚ) ≤ mh) :
    calculateOptimalDimensionsCore w h mw mh = ((w : ℤ), (h : ℤ)) := by
  have hw' : (0 : ℚ) < w := by exact_mod_cast hw
  have hh' : (0 : ℚ) < h := by exact_mod_cast hh
  have h1 : (1 : ℚ) ≤ mw / w := (one_le_div hw').2 hbw
  have h2 : (1 : ℚ) ≤ mh / h := (one_le_div hh').2 hbh
  have hmin : min 1 (min (mw / (w : ℚ)) (mh / (h : ℚ))) = 1 :=
    min_eq_left (le_min h1 h2)
  simp [calculateOptimalDimensionsCore, hmin]

/-- Witness for C4 at dimensions (4, 3) and bounds (4, 7). -/
theorem calculateOptimalDimensions_id_under_bounds_wit :
    calculateOptimalDimensionsCore 4 3 4 7 = ((4 : ℤ), (3 : ℤ)) := by
  have h := calculateOptimalDimensions_id_under_bounds 4 3 4 7
    (by norm_num) (by norm_num) (by norm_num) (by norm_num)
  simpa using h

/-! ### Claim C7: compressor no-op -/

/-- Claim C7: when the stat size of the input is already within `maxSize`,
`compressJpeg` returns the input path with the filesystem untouched, its
trace being one read and one stat — in particular no encode occurs. -/
theorem compressJpeg_noop (env : Env) (fs : FS) (path : String) (ms : ℚ)
    (ad : Bool) (data : Bytes) (hread : fsLookup fs path = some data)
    (hsmall : (env.byteSize data : ℚ) ≤ ms) :
    compressJpeg env fs path ms ad
      = Except.ok (path, fs, [Event.readF path, Event.statF path]) ∧
    ∀ s q, Event.encode s q ∉ [Event.readF path, Event.statF path] := by
  refine ⟨?_, by intro s q; simp⟩
  simp [compressJpeg, hread, getImageSizeE, hsmall]

/-- A codec environment where every contents term has size 10. -/
def envConst10 : Env :=
  { byteSize := fun _ => 10, pixelDims := fun _ => none }

/-- A one-file filesystem for the compressor witnesses. -/
def fsImg : FS := [("img.jpeg", Bytes.fileB 0)]

/-- Witness for C7: a 10-byte file against a budget of 20. -/
theorem compressJpeg_noop_wit :
    compressJpeg envConst10 fsImg "img.jpeg" 20 true
      = Except.ok ("img.jpeg", fsImg, [Event.readF "img.jpeg", Event.statF "img.jpeg"]) ∧
    ∀ s q, Event.encode s q ∉ [Event.readF "img.jpeg", Event.statF "img.jpeg"] :=
  compressJpeg_noop envConst10 fsImg "img.jpeg" 20 true (Bytes.fileB 0)
    (by decide) (by norm_num [envConst10])

/-! ### Claim C5: converter no-op -/

/-- Claim C5 (amended): when the FIRST image-extension match in the path is
`.jpeg` or `.jpg`, `convertToJpeg` returns the identical path, leaves the
filesystem untouched and performs no effect at all (empty trace), for
either value of the auto-delete flag. -/
theorem convertToJpeg_noop (fs : FS) (path : String) (ad : Bool) (f : String)
    (hf : findExtStr path = some f) (hj : f = ".jpeg" ∨ f = ".jpg") :
    convertToJpeg fs path ad = Except.ok (path, fs, []) := by
  rcases hj with rfl | rfl <;> simp [convertToJpeg, hf]

/-- Witness for C5 on the path "photo.jpg". -/
theorem convertToJpeg_noop_wit :
    convertToJpeg [("photo.jpg", Bytes.fileB 0)] "photo.jpg" true
      = Except.ok ("photo.jpg", [("photo.jpg", Bytes.fileB 0)], []) :=
  convertToJpeg_noop [("photo.jpg", Bytes.fileB 0)] "photo.jpg" true ".jpg"
    (by decide) (Or.inr rfl)

/-- Claim C5 counterexample: "a.png.jpg" ends in ".jpg", yet
`convertToJpeg` reads and re-encodes it and returns a different path,
because `getFormat` matches the first extension occurrence ".png". -/
theorem convertToJpeg_noop_cex :
    List.isSuffixOf ".jpg".data "a.png.jpg".data = true ∧
    convertToJpeg [("a.png.jpg", Bytes.fileB 0)] "a.png.jpg" false
      = Except.ok ("a.jpeg.jpg",
          [("a.jpeg.jpg", Bytes.jpegEnc (Bytes.fileB 0) 100),
           ("a.png.jpg", Bytes.fileB 0)],
          [Event.readF "a.png.jpg", Event.encode (Bytes.fileB 0) 100,
           Event.writeF "a.jpeg.jpg"]) ∧
    ("a.jpeg.jpg" : String) ≠ "a.png.jpg" := by
  refine ⟨by decide, by decide, by decide⟩

/-! ### Claim C6: path naming -/

theorem startsWithChars_self_append (pat rest : List Char) :
    startsWithChars pat (pat ++ rest) = true := by
  induction pat with
  | nil => rfl
  | cons a as ih => simp [startsWithChars, ih]

theorem startsWithChars_head_ne (a : Char) (pt : List Char) (b : Char)
    (bs : List Char) (h : a ≠ b) : startsWithChars (a :: pt) (b :: bs) = false := by
  simp [startsWithChars, h]

theorem replaceFirstL_skip (p0 : Char) (pt repl : List Char) :
    ∀ (l rest : List Char), (∀ c ∈ l, c ≠ p0) →
    replaceFirstL (p0 :: pt) repl (l ++ rest)
      = l ++ replaceFirstL (p0 :: pt) repl rest := by
  intro l
  induction l with
  | nil => intro rest _; simp
  | cons c l ih =>
    intro rest h
    have hc : p0 ≠ c := fun e => (h c (by simp)) e.symm
    have hfalse : startsWithChars (p0 :: pt) (c :: (l ++ rest)) = false :=
      startsWithChars_head_ne p0 pt c (l ++ rest) hc
    rw [List.cons_append, replaceFirstL, hfalse]
    simp only [Bool.false_eq_true, if_false]
    rw [ih rest fun x h2 => h x (List.mem_cons_of_mem _ h2)]
    simp

theorem replaceFirstL_head (p0 : Char) (pt repl rest : List Char) :
    replaceFirstL (p0 :: pt) repl (p0 :: (pt ++ rest)) = repl ++ rest := by
  have h1 : startsWithChars (p0 :: pt) (p0 :: (pt ++ rest)) = true := by
    simpa using startsWithChars_self_append (p0 :: pt) rest
  rw [replaceFirstL, h1]
  simp [List.drop_left]

theorem matchExtAt_not_dot (c : Char) (xs : List Char) (hc : c ≠ '.') :
    matchExtAt (c :: xs) = none := by
  have hd : ('.' : Char) ≠ c := fun e => hc e.symm
  simp [matchExtAt, extAlts, List.find?,
    show (".png" : String).data = ['.', 'p', 'n', 'g'] from rfl,
    show (".svg" : String).data = ['.', 's', 'v', 'g'] from rfl,
    show (".jpg" : String).data = ['.', 'j', 'p', 'g'] from rfl,
    show (".jpeg" : String).data = ['.', 'j', 'p', 'e', 'g'] from rfl,
    show (".gif" : String).data = ['.', 'g', 'i', 'f'] from rfl,
    startsWithChars, hd]

theorem findExtL_skip (l rest : List Char) (h : ∀ c ∈ l, c ≠ '.') :
    findExtL (l ++ rest) = findExtL rest := by
  induction l with
  | nil => simp
  | cons c l ih =>
    have hm : matchExtAt (c :: (l ++ rest)) = none :=
      matchExtAt_not_dot c (l ++ rest) (h c (by simp))
    rw [List.cons_append, findExtL, hm]
    exact ih fun x h2 => h x (by simp [h2])

theorem strDataAppend (a b : String) : (a ++ b).data = a.data ++ b.data := by
  cases a; cases b; rfl

theorem replaceExt_data (u : String) (vd pt repl : List Char)
    (hu : ∀ c ∈ u.data, c ≠ '.') :
    replaceFirstL ('.' :: pt) repl (u.data ++ (('.' :: pt) ++ vd))
      = u.data ++ (repl ++ vd) := by
  rw [replaceFirstL_skip '.' pt repl u.data (('.' :: pt) ++ vd) hu]
  refine congrArg (u.data ++ ·) ?_
  simpa using replaceFirstL_head '.' pt repl vd

theorem findExtStr_concat (u f v : String) (hu' : ∀ c ∈ u.data, c ≠ '.')
    (hmatch : findExtL (f.data ++ v.data) = some f) :
    findExtStr (u ++ f ++ v) = some f := by
  simp only [findExtStr]
  rw [show (u ++ f ++ v).data = u.data ++ (f.data ++ v.data) from
      by rw [strDataAppend, strDataAppend, List.append_assoc],
    findExtL_skip u.data (f.data ++ v.data) hu', hmatch]

theorem replaceStr_concat (u f v rep : String) (pt : List Char)
    (hu' : ∀ c ∈ u.data, c ≠ '.') (hfd : f.data = '.' :: pt) :
    replaceFirstStr (u ++ f ++ v) f rep = u ++ rep ++ v := by
  simp only [replaceFirstStr]
  rw [hfd,
    show (u ++ f ++ v).data = u.data ++ (('.' :: pt) ++ v.data) from
      by rw [strDataAppend, strDataAppend, List.append_assoc, hfd],
    replaceExt_data u v.data pt rep.data hu',
    ← List.append_assoc, ← strDataAppend, ← strDataAppend]

/-- Claim C6 (amended): the stage naming acts at the FIRST match, not at
the final extension.  When the path prefix `u` before the matched part is
dot-free the claim's form is recovered: `convertToJpeg` turns `u ++ f ++ v`
(first extension match `f`) into `u ++ ".jpeg" ++ v`, and the resize and
compress markers land before the first dot, i.e. `u ++ "." ++ v` becomes
`u ++ "-resized." ++ v` and `u ++ "-compressed." ++ v`.  For a path with
dots or extension-like substrings before the true extension, the markers do
NOT land before the extension (see the counterexample). -/
theorem stage_naming (u v f : String) (hf : f ∈ extAlts)
    (hu : ('.' : Char) ∉ u.data) :
    findExtStr (u ++ f ++ v) = some f ∧
    replaceFirstStr (u ++ f ++ v) f ".jpeg" = u ++ ".jpeg" ++ v ∧
    resizedName (u ++ "." ++ v) = u ++ "-resized." ++ v ∧
    compressedName (u ++ "." ++ v) = u ++ "-compressed." ++ v := by
  have hu' : ∀ c ∈ u.data, c ≠ '.' := fun c hc e => hu (e ▸ hc)
  refine ⟨?_, ?_, ?_, ?_⟩
  · exact findExtStr_concat u f v hu' (by fin_cases hf <;> rfl)
  · fin_cases hf
    · exact replaceStr_concat u ".png" v ".jpeg" ['p', 'n', 'g'] hu' rfl
    · exact replaceStr_concat u ".svg" v ".jpeg" ['s', 'v', 'g'] hu' rfl
    · exact replaceStr_concat u ".jpg" v ".jpeg" ['j', 'p', 'g'] hu' rfl
    · exact replaceStr_concat u ".jpeg" v ".jpeg" ['j', 'p', 'e', 'g'] hu' rfl
    · exact replaceStr_concat u ".gif" v ".jpeg" ['g', 'i', 'f'] hu' rfl
  · exact replaceStr_concat u "." v "-resized." [] hu' rfl
  · exact replaceStr_concat u "." v "-compressed." [] hu' rfl

/-- Witness for C6 at u = "photo", f = ".png", v = "". -/
theorem stage_naming_wit :
    findExtStr ("photo" ++ ".png" ++ "") = some ".png" ∧
    replaceFirstStr ("photo" ++ ".png" ++ "") ".png" ".jpeg"
      = "photo" ++ ".jpeg" ++ "" ∧
    resizedName ("photo" ++ "." ++ "") = "photo" ++ "-resized." ++ "" ∧
    compressedName ("photo" ++ "." ++ "") = "photo" ++ "-compressed." ++ "" :=
  stage_naming "photo" "" ".png" (by decide) (by decide)

/-- Claim C6 counterexample: on a path with an extra dot the markers land
before the FIRST dot, not before the extension, and on a path with an
earlier extension-like substring the conversion rewrites that substring,
not the final extension. -/
theorem stage_naming_cex :
    resizedName "a.b.jpeg" = "a-resized.b.jpeg" ∧
    ("a-resized.b.jpeg" : String) ≠ "a.b-resized.jpeg" ∧
    compressedName "a.b.jpeg" = "a-compressed.b.jpeg" ∧
    ("a-compressed.b.jpeg" : String) ≠ "a.b-compressed.jpeg" ∧
    canonicalJpegName "b.png.gif" = some "b.jpeg.gif" ∧
    ("b.jpeg.gif" : String) ≠ "b.png.jpeg" := by
  exact ⟨by decide, by decide, by decide, by decide, by decide, by decide⟩

/-! ### Claim C8: argument validation -/

/-- Claim C8 (amended, spec-modelled): validation is a type/shape check
only.  `calculateOptimalDimensions` fails with `InvalidArgument` exactly
when an argument is not an object or one of the four fields is missing or
non-numeric; zero or negative numeric values pass validation and do not
fail. -/
theorem calculateOptimalDimensions_validation (d m : JVal) :
    (wellFormedDims d m = false →
      calculateOptimalDimensionsJS d m = Except.error Err.invalidArg) ∧
    (wellFormedDims d m = true →
      ∃ z, calculateOptimalDimensionsJS d m = Except.ok z) := by
  cases d with
  | prim p => simp [wellFormedDims, calculateOptimalDimensionsJS]
  | obj df =>
    cases m with
    | prim p => simp [wellFormedDims, calculateOptimalDimensionsJS]
    | obj mf =>
      rcases hw : numOf (jget df "width") with _ | w <;>
      rcases hh : numOf (jget df "height") with _ | h <;>
      rcases hmw : numOf (jget mf "maxWidth") with _ | mw <;>
      rcases hmh : numOf (jget mf "maxHeight") with _ | mh <;>
        simp [wellFormedDims, calculateOptimalDimensionsJS, hw, hh, hmw, hmh]

/-- Witness for C8 on a well-formed pair of arguments. -/
theorem calculateOptimalDimensions_validation_wit :
    wellFormedDims (JVal.obj [("width", JPrim.num 4), ("height", JPrim.num 3)])
      (JVal.obj [("maxWidth", JPrim.num 10), ("maxHeight", JPrim.num 10)]) = true ∧
    ∃ z, calculateOptimalDimensionsJS
      (JVal.obj [("width", JPrim.num 4), ("height", JPrim.num 3)])
      (JVal.obj [("maxWidth", JPrim.num 10), ("maxHeight", JPrim.num 10)])
      = Except.ok z :=
  ⟨by decide,
   (calculateOptimalDimensions_validation
      (JVal.obj [("width", JPrim.num 4), ("height", JPrim.num 3)])
      (JVal.obj [("maxWidth", JPrim.num 10), ("maxHeight", JPrim.num 10)])).2
     (by decide)⟩

/-- Claim C8 counterexample: a negative width passes validation — the call
returns a normal result instead of failing with `InvalidArgument` as the
claim requires for non-positive numeric fields. -/
theorem calculateOptimalDimensions_validation_cex :
    calculateOptimalDimensionsJS
      (JVal.obj [("width", JPrim.num (-1)), ("height", JPrim.num 10)])
      (JVal.obj [("maxWidth", JPrim.num 100), ("maxHeight", JPrim.num 100)])
      = Except.ok (100, -1000) ∧
    calculateOptimalDimensionsJS
      (JVal.obj [("width", JPrim.num (-1)), ("height", JPrim.num 10)])
      (JVal.obj [("maxWidth", JPrim.num 100), ("maxHeight", JPrim.num 100)])
      ≠ Except.error Err.invalidArg := by
  have h1 : calculateOptimalDimensionsJS
      (JVal.obj [("width", JPrim.num (-1)), ("height", JPrim.num 10)])
      (JVal.obj [("maxWidth", JPrim.num 100), ("maxHeight", JPrim.num 100)])
      = Except.ok (100, -1000) := by
    norm_num [calculateOptimalDimensionsJS, jget, numOf, List.find?,
      calculateOptimalDimensionsCore, min_def,
      show ("width" == "height") = false from by decide,
      show ("maxWidth" == "maxHeight") = false from by decide]
  exact ⟨h1, by simp [h1]⟩

/-! ### The binary-search loop invariant -/

/-- Main lemma on the search loop.  From a state `(l, r)` satisfying the
invariant (`l` initial or tried-and-under-budget, `r` initial or
tried-and-not-under-budget) and enough fuel, the loop returns normally with
a final `left` satisfying the invariant, with `left + 1` being the final
`right`, and appends only encodes of the original `data` to the trace. -/
theorem compressLoop_spec (env : Env) (data : Bytes) (newPath : String)
    (ms : ℚ) :
    ∀ (fuel l r : Nat) (fs : FS) (tr : List Event),
      r - l ≤ fuel + 1 → 1 ≤ l → l < r → r ≤ 100 →
      (l = 1 ∨ (env.byteSize (Bytes.jpegEnc data l) : ℚ) < ms) →
      (r = 100 ∨ ¬ ((env.byteSize (Bytes.jpegEnc data r) : ℚ) < ms)) →
      ∃ (lf : Nat) (fsf : FS) (te : List Event),
        compressLoop env data newPath ms fuel fs l r tr
          = Except.ok (lf, fsf, tr ++ te) ∧
        l ≤ lf ∧ lf + 1 ≤ r ∧ lf ≤ 99 ∧
        (lf = 1 ∨ (env.byteSize (Bytes.jpegEnc data lf) : ℚ) < ms) ∧
        (lf + 1 = 100 ∨ ¬ ((env.byteSize (Bytes.jpegEnc data (lf + 1)) : ℚ) < ms)) ∧
        (∀ s q, Event.encode s q ∈ te → s = data) := by
  intro fuel
  induction fuel with
  | zero =>
    intro l r fs tr hn h1 hlr hr hinvL hinvR
    have hr1 : r = l + 1 := by omega
    refine ⟨l, fs, [], ?_, le_refl l, by omega, by omega, hinvL,
      hr1 ▸ hinvR, by simp⟩
    rw [compressLoop]
    simp [show ¬ (1 < r - l) from by omega]
  | succ fuel ih =>
    intro l r fs tr hn h1 hlr hr hinvL hinvR
    by_cases hgt : 1 < r - l
    · rw [compressLoop, getImageSizeE_write_self]
      simp only [if_pos hgt]
      by_cases hsz : ((env.byteSize (Bytes.jpegEnc data ((l + r) / 2)) : ℚ) < ms)
      · simp only [if_pos hsz]
        obtain ⟨lf, fsf, te, heq, hle, hlt, h99, hinvL2, hinvR2, henc⟩ :=
          ih ((l + r) / 2) r
            (fsWrite fs newPath (Bytes.jpegEnc data ((l + r) / 2)))
            (tr ++ [Event.encode data ((l + r) / 2),
              Event.writeF newPath, Event.statF newPath])
            (by omega) (by omega) (by omega) hr (Or.inr hsz) hinvR
        refine ⟨lf, fsf,
          [Event.encode data ((l + r) / 2),
            Event.writeF newPath, Event.statF newPath] ++ te,
          ?_, by omega, hlt, h99, hinvL2, hinvR2, ?_⟩
        · rw [heq, List.append_assoc]
        · intro s q hq
          rcases List.mem_append.1 hq with hq | hq
          · simp at hq
            exact hq.1
          · exact henc s q hq
      · simp only [if_neg hsz]
        obtain ⟨lf, fsf, te, heq, hle, hlt, h99, hinvL2, hinvR2, henc⟩ :=
          ih l ((l + r) / 2)
            (fsWrite fs newPath (Bytes.jpegEnc data ((l + r) / 2)))
            (tr ++ [Event.encode data ((l + r) / 2),
              Event.writeF newPath, Event.statF newPath])
            (by omega) h1 (by omega) (by omega) hinvL (Or.inr hsz)
        refine ⟨lf, fsf,
          [Event.encode data ((l + r) / 2),
            Event.writeF newPath, Event.statF newPath] ++ te,
          ?_, hle, by omega, h99, hinvL2, hinvR2, ?_⟩
        · rw [heq, List.append_assoc]
        · intro s q hq
          rcases List.mem_append.1 hq with hq | hq
          · simp at hq
            exact hq.1
          · exact henc s q hq
    · have hr1 : r = l + 1 := by omega
      refine ⟨l, fs, [], ?_, le_refl l, by omega, by omega, hinvL,
        hr1 ▸ hinvR, by simp⟩
      rw [compressLoop]
      simp [show ¬ (1 < r - l) from by omega]

/-! ### Claim C2: loop shape, invariant, final encode, no-failure edge case -/

/-- Claim C2: (1) one search iteration (`compressStep`) preserves the
invariant — the new `left` is initial or tried-and-under-budget, the new
`right` is initial or tried-and-at-or-over-budget — and strictly shrinks
`right - left`; (2) while `right - left > 1` the loop performs exactly one
encode of the original bytes at `floor((left+right)/2)`, a write and a
stat, and recurses on the `compressStep` state; (3) when the no-op check
fails, `compressJpeg` runs the loop and then ALWAYS performs one final
encode at the final `left`, returning normally, and when no quality at all
is strictly under budget the final `left` is 1 (the file is returned at
quality 1, no failure raised). -/
theorem compressJpeg_loop_contract (env : Env) (data : Bytes) (ms : ℚ) :
    (∀ l r : Nat, 1 ≤ l → 1 < r - l →
      (l = 1 ∨ (env.byteSize (Bytes.jpegEnc data l) : ℚ) < ms) →
      (r = 100 ∨ ¬ ((env.byteSize (Bytes.jpegEnc data r) : ℚ) < ms)) →
      ((compressStep env data ms l r).1 = 1 ∨
        (env.byteSize (Bytes.jpegEnc data (compressStep env data ms l r).1) : ℚ) < ms) ∧
      ((compressStep env data ms l r).2 = 100 ∨
        ¬ ((env.byteSize (Bytes.jpegEnc data (compressStep env data ms l r).2) : ℚ) < ms)) ∧
      (compressStep env data ms l r).2 - (compressStep env data ms l r).1 < r - l) ∧
    (∀ (newPath : String) (fuel : Nat) (fs : FS) (l r : Nat) (tr : List Event),
      1 < r - l →
      compressLoop env data newPath ms (fuel + 1) fs l r tr
        = compressLoop env data newPath ms fuel
            (fsWrite fs newPath (Bytes.jpegEnc data ((l + r) / 2)))
            (compressStep env data ms l r).1 (compressStep env data ms l r).2
            (tr ++ [Event.encode data ((l + r) / 2), Event.writeF newPath,
              Event.statF newPath])) ∧
    (∀ (fs : FS) (path : String),
      fsLookup fs path = some data → ¬ ((env.byteSize data : ℚ) ≤ ms) →
      ∃ (lf : Nat) (fs1 : FS) (tr1 : List Event),
        compressLoop env data (compressedName path) ms 100 fs 1 100
          [Event.readF path, Event.statF path] = Except.ok (lf, fs1, tr1) ∧
        compressJpeg env fs path ms false
          = Except.ok (compressedName path,
              fsWrite fs1 (compressedName path) (Bytes.jpegEnc data lf),
              tr1 ++ [Event.encode data lf,
                Event.writeF (compressedName path)]) ∧
        ((∀ q : Nat, 1 ≤ q → q ≤ 100 →
            ¬ ((env.byteSize (Bytes.jpegEnc data q) : ℚ) < ms)) → lf = 1)) := by
  refine ⟨?_, ?_, ?_⟩
  · intro l r h1 hgt hinvL hinvR
    by_cases hsz : ((env.byteSize (Bytes.jpegEnc data ((l + r) / 2)) : ℚ) < ms)
    · simp only [compressStep, if_pos hsz]
      exact ⟨Or.inr hsz, hinvR, by omega⟩
    · simp only [compressStep, if_neg hsz]
      exact ⟨hinvL, Or.inr hsz, by omega⟩
  · intro newPath fuel fs l r tr hgt
    rw [compressLoop, getImageSizeE_write_self]
    simp only [if_pos hgt]
    by_cases hsz : ((env.byteSize (Bytes.jpegEnc data ((l + r) / 2)) : ℚ) < ms) <;>
      simp [compressStep, hsz]
  · intro fs path hread hbig
    obtain ⟨lf, fsf, te, heq, hle, hlt, h99, hinvL, hinvR, henc⟩ :=
      compressLoop_spec env data (compressedName path) ms 100 1 100 fs
        [Event.readF path, Event.statF path] (by omega) (by omega) (by omega)
        (by omega) (Or.inl rfl) (Or.inl rfl)
    refine ⟨lf, fsf, [Event.readF path, Event.statF path] ++ te, heq, ?_, ?_⟩
    · simp only [compressJpeg, getImageSizeE, hread]
      rw [if_neg hbig, heq]
      simp
    · intro hall
      rcases hinvL with h | h
      · exact h
      · exact absurd h (hall lf (by omega) (by omega))

/-- Witness for C2: with every encode of size 10 against budget 5 (no
quality fits), the search converges and the final encode is at quality 1. -/
theorem compressJpeg_loop_contract_wit :
    ∃ (lf : Nat) (fs1 : FS) (tr1 : List Event),
      compressLoop envConst10 (Bytes.fileB 0) (compressedName "img.jpeg") 5
        100 fsImg 1 100 [Event.readF "img.jpeg", Event.statF "img.jpeg"]
        = Except.ok (lf, fs1, tr1) ∧
      compressJpeg envConst10 fsImg "img.jpeg" 5 false
        = Except.ok (compressedName "img.jpeg",
            fsWrite fs1 (compressedName "img.jpeg")
              (Bytes.jpegEnc (Bytes.fileB 0) lf),
            tr1 ++ [Event.encode (Bytes.fileB 0) lf,
              Event.writeF (compressedName "img.jpeg")]) ∧
      ((∀ q : Nat, 1 ≤ q → q ≤ 100 →
          ¬ ((envConst10.byteSize (Bytes.jpegEnc (Bytes.fileB 0) q) : ℚ) < 5)) →
        lf = 1) :=
  (compressJpeg_loop_contract envConst10 (Bytes.fileB 0) 5).2.2 fsImg
    "img.jpeg" (by decide) (by norm_num [envConst10])

/-! ### Claim C1: compressor convergence and maximality -/

/-- Claim C1 (amended): when the initial file size exceeds the budget (the
search actually runs), encoded size is monotone in quality and some quality
in [1,100] fits the budget, `compressJpeg` returns the `-compressed` file,
its content is the encode of the original bytes at the final quality `qf`,
that size is strictly under budget, and no quality in `(qf, 99]` fits —
maximality holds up to 99 only: the search never returns quality 100, which
may also fit (see the counterexample); similarly, when the initial size is
within the budget the returned file's size need not be strictly under it. -/
theorem compressJpeg_search_maximal (env : Env) (fs : FS) (path : String)
    (ms : ℚ) (data : Bytes)
    (hread : fsLookup fs path = some data)
    (hbig : ¬ ((env.byteSize data : ℚ) ≤ ms))
    (hmono : ∀ q1 q2 : Nat, q1 ≤ q2 →
      env.byteSize (Bytes.jpegEnc data q1) ≤ env.byteSize (Bytes.jpegEnc data q2))
    (hreach : ∃ q : Nat, 1 ≤ q ∧ q ≤ 100 ∧
      (env.byteSize (Bytes.jpegEnc data q) : ℚ) < ms) :
    ∃ (qf : Nat) (fsf : FS) (tr : List Event),
      compressJpeg env fs path ms false
        = Except.ok (compressedName path, fsf, tr) ∧
      fsLookup fsf (compressedName path) = some (Bytes.jpegEnc data qf) ∧
      1 ≤ qf ∧ qf ≤ 99 ∧
      (env.byteSize (Bytes.jpegEnc data qf) : ℚ) < ms ∧
      (∀ q : Nat, qf < q → q ≤ 99 →
        ¬ ((env.byteSize (Bytes.jpegEnc data q) : ℚ) < ms)) := by
  obtain ⟨lf, fsf0, te, heq, hle, hlt, h99, hinvL, hinvR, henc⟩ :=
    compressLoop_spec env data (compressedName path) ms 100 1 100 fs
      [Event.readF path, Event.statF path] (by omega) (by omega) (by omega)
      (by omega) (Or.inl rfl) (Or.inl rfl)
  have hsize : (env.byteSize (Bytes.jpegEnc data lf) : ℚ) < ms := by
    rcases hinvL with h | h
    · obtain ⟨q, hq1, hq100, hqlt⟩ := hreach
      calc (env.byteSize (Bytes.jpegEnc data lf) : ℚ)
          ≤ (env.byteSize (Bytes.jpegEnc data q) : ℚ) := by
            exact_mod_cast hmono lf q (by omega)
        _ < ms := hqlt
    · exact h
  refine ⟨lf, fsWrite fsf0 (compressedName path) (Bytes.jpegEnc data lf),
    ([Event.readF path, Event.statF path] ++ te)
      ++ [Event.encode data lf, Event.writeF (compressedName path)],
    ?_, fsLookup_fsWrite_self _ _ _, by omega, h99, hsize, ?_⟩
  · simp only [compressJpeg, getImageSizeE, hread]
    rw [if_neg hbig, heq]
    simp
  · intro q hq hq99 hcon
    rcases hinvR with h100 | hbig2
    · omega
    · apply hbig2
      calc (env.byteSize (Bytes.jpegEnc data (lf + 1)) : ℚ)
          ≤ (env.byteSize (Bytes.jpegEnc data q) : ℚ) := by
            exact_mod_cast hmono (lf + 1) q (by omega)
        _ < ms := hcon

/-- A codec environment where the original file has size 100 and the
encode at quality `q` has size exactly `q` (monotone). -/
def envLinear : Env :=
  { byteSize := fun b => match b with
      | Bytes.fileB _ => 100
      | Bytes.jpegEnc _ q => q
      | Bytes.resizedB _ _ _ => 0,
    pixelDims := fun _ => none }

/-- Witness for C1: original size 100, encode size = quality, budget 50.
The search returns quality 49. -/
theorem compressJpeg_search_maximal_wit :
    ∃ (qf : Nat) (fsf : FS) (tr : List Event),
      compressJpeg envLinear [("img.jpeg", Bytes.fileB 0)] "img.jpeg" 50 false
        = Except.ok (compressedName "img.jpeg", fsf, tr) ∧
      fsLookup fsf (compressedName "img.jpeg")
        = some (Bytes.jpegEnc (Bytes.fileB 0) qf) ∧
      1 ≤ qf ∧ qf ≤ 99 ∧
      (envLinear.byteSize (Bytes.jpegEnc (Bytes.fileB 0) qf) : ℚ) < 50 ∧
      (∀ q : Nat, qf < q → q ≤ 99 →
        ¬ ((envLinear.byteSize (Bytes.jpegEnc (Bytes.fileB 0) q) : ℚ) < 50)) :=
  compressJpeg_search_maximal envLinear [("img.jpeg", Bytes.fileB 0)]
    "img.jpeg" 50 (Bytes.fileB 0) (by decide) (by norm_num [envLinear])
    (fun q1 q2 h => by simpa [envLinear] using h)
    ⟨1, le_refl 1, by norm_num, by norm_num [envLinear]⟩

/-- A codec environment with original size 30 and every encode of size 10. -/
def envBig30Enc10 : Env :=
  { byteSize := fun b => match b with
      | Bytes.fileB _ => 30
      | Bytes.jpegEnc _ _ => 10
      | Bytes.resizedB _ _ _ => 0,
    pixelDims := fun _ => none }

/-- A codec environment with original size 20 and every encode of size 10. -/
def envEq20Enc10 : Env :=
  { byteSize := fun b => match b with
      | Bytes.fileB _ => 20
      | Bytes.jpegEnc _ _ => 10
      | Bytes.resizedB _ _ _ => 0,
    pixelDims := fun _ => none }

/-- Claim C1 counterexample.  First conjunct: the claim as stated (result
strictly under budget AND no strictly higher quality in [1,100] fits) is
false — with every encode of size 10 against budget 20 the search returns
quality 99 while quality 100 also fits.  Second conjunct: when the initial
size equals the budget, the original file (size = budget, NOT strictly
under it) is returned even though the budget is reachable by encoding. -/
theorem compressJpeg_search_maximal_cex :
    (¬ ∀ (env : Env) (fs : FS) (path : String) (ms : ℚ) (data : Bytes),
      fsLookup fs path = some data →
      (∀ q1 q2 : Nat, q1 ≤ q2 →
        env.byteSize (Bytes.jpegEnc data q1) ≤ env.byteSize (Bytes.jpegEnc data q2)) →
      (∃ q : Nat, 1 ≤ q ∧ q ≤ 100 ∧
        (env.byteSize (Bytes.jpegEnc data q) : ℚ) < ms) →
      ∃ (p2 : String) (fs2 : FS) (tr : List Event) (b : Bytes),
        compressJpeg env fs path ms false = Except.ok (p2, fs2, tr) ∧
        fsLookup fs2 p2 = some b ∧ (env.byteSize b : ℚ) < ms ∧
        (∀ q0 : Nat, b = Bytes.jpegEnc data q0 →
          ∀ q : Nat, q0 < q → q ≤ 100 →
            ¬ ((env.byteSize (Bytes.jpegEnc data q) : ℚ) < ms))) ∧
    (compressJpeg envEq20Enc10 [("b.jpeg", Bytes.fileB 0)] "b.jpeg" 20 false
        = Except.ok ("b.jpeg", [("b.jpeg", Bytes.fileB 0)],
            [Event.readF "b.jpeg", Event.statF "b.jpeg"]) ∧
      ¬ ((envEq20Enc10.byteSize (Bytes.fileB 0) : ℚ) < 20) ∧
      (envEq20Enc10.byteSize (Bytes.jpegEnc (Bytes.fileB 0) 50) : ℚ) < 20) := by
  constructor
  · intro hall
    obtain ⟨p2, fs2, tr, b, heq, hlook, hsz, hmax⟩ :=
      hall envBig30Enc10 [("a.jpeg", Bytes.fileB 0)] "a.jpeg" 20 (Bytes.fileB 0)
        (by decide) (fun q1 q2 h => by simp [envBig30Enc10])
        ⟨1, le_refl 1, by norm_num, by norm_num [envBig30Enc10]⟩
    have hmap : (compressJpeg envBig30Enc10 [("a.jpeg", Bytes.fileB 0)]
          "a.jpeg" 20 false).map (fun z => (z.1, fsLookup z.2.1 z.1))
        = Except.ok ("a-compressed.jpeg",
            some (Bytes.jpegEnc (Bytes.fileB 0) 99)) := by decide
    rw [heq] at hmap
    simp only [Except.map] at hmap
    injection hmap with hmap
    rw [Prod.ext_iff] at hmap
    obtain ⟨hp, hl⟩ := hmap
    rw [hlook] at hl
    injection hl with hb
    exact absurd (by norm_num [envBig30Enc10] :
        (envBig30Enc10.byteSize (Bytes.jpegEnc (Bytes.fileB 0) 100) : ℚ) < 20)
      (hmax 99 hb 100 (by omega) (by omega))
  · exact ⟨by decide, by norm_num [envEq20Enc10], by norm_num [envEq20Enc10]⟩

/-! ### Claim C10: every encode reads from the original bytes -/

/-- Claim C10: whenever `compressJpeg` returns, every encode event in its
trace — all binary-search iterations and the final mandatory encode — has
the bytes read once from the original input file as its source; hence two
encodes at the same quality produce identical output (no compounding
re-encode loss).  The last conjunct restates the source property as a
decidable scan of the trace. -/
theorem compressJpeg_single_source (env : Env) (fs : FS) (path : String)
    (ms : ℚ) (ad : Bool) (data : Bytes)
    (hread : fsLookup fs path = some data) :
    ∀ (p2 : String) (fs2 : FS) (tr : List Event),
      compressJpeg env fs path ms ad = Except.ok (p2, fs2, tr) →
      (∀ s q, Event.encode s q ∈ tr → s = data) ∧
      (∀ s1 s2 q, Event.encode s1 q ∈ tr → Event.encode s2 q ∈ tr →
        Bytes.jpegEnc s1 q = Bytes.jpegEnc s2 q) ∧
      tr.all (fun e => match e with
        | Event.encode s _ => s == data
        | _ => true) = true := by
  intro p2 fs2 tr heq
  have h1 : ∀ s q, Event.encode s q ∈ tr → s = data := by
    simp only [compressJpeg, getImageSizeE, hread] at heq
    by_cases hle : ((env.byteSize data : ℚ) ≤ ms)
    · rw [if_pos hle] at heq
      injection heq with h
      have htr : tr = [Event.readF path, Event.statF path] := by
        have := congrArg (fun z => z.2.2) h
        simpa using this.symm
      subst htr
      intro s q hq
      simp at hq
    · rw [if_neg hle] at heq
      obtain ⟨lf, fsf, te, hloop, -, -, -, -, -, henc⟩ :=
        compressLoop_spec env data (compressedName path) ms 100 1 100 fs
          [Event.readF path, Event.statF path] (by omega) (by omega)
          (by omega) (by omega) (Or.inl rfl) (Or.inl rfl)
      rw [hloop] at heq
      cases ad with
      | false =>
        simp only [Bool.false_eq_true, if_false] at heq
        injection heq with h
        have htr : tr = ([Event.readF path, Event.statF path] ++ te)
            ++ [Event.encode data lf, Event.writeF (compressedName path)] := by
          have := congrArg (fun z => z.2.2) h
          simpa using this.symm
        subst htr
        intro s q hq
        rcases List.mem_append.1 hq with hq | hq
        · rcases List.mem_append.1 hq with hq | hq
          · simp at hq
          · exact henc s q hq
        · simp at hq
          exact hq.1
      | true =>
        dsimp only [] at heq
        rcases hu : fsUnlinkE
            (fsWrite fsf (compressedName path) (Bytes.jpegEnc data lf))
            path with e | fs3
        · rw [hu] at heq
          simp at heq
        · rw [hu] at heq
          injection heq with h
          have htr : tr = (([Event.readF path, Event.statF path] ++ te)
              ++ [Event.encode data lf, Event.writeF (compressedName path)])
              ++ [Event.unlinkF path] := by
            have := congrArg (fun z => z.2.2) h
            simpa using this.symm
          subst htr
          intro s q hq
          rcases List.mem_append.1 hq with hq | hq
          · rcases List.mem_append.1 hq with hq | hq
            · rcases List.mem_append.1 hq with hq | hq
              · simp at hq
              · exact henc s q hq
            · simp at hq
              exact hq.1
          · simp at hq
  refine ⟨h1, fun s1 s2 q m1 m2 => by rw [h1 s1 q m1, h1 s2 q m2], ?_⟩
  rw [List.all_eq_true]
  intro e he
  cases e with
  | encode s q => simpa using h1 s q he
  | readF p => rfl
  | writeF p => rfl
  | statF p => rfl
  | unlinkF p => rfl

/-- Witness for C10: a run in which the search loop performs eight encodes
(seven iterations plus the final one); every encode's source is the
original bytes. -/
theorem compressJpeg_single_source_wit :
    (compressJpeg envBig30Enc10 [("a.jpeg", Bytes.fileB 0)] "a.jpeg" 20
        false).map
      (fun z => z.2.2.all (fun e => match e with
        | Event.encode s _ => s == Bytes.fileB 0
        | _ => true)) = Except.ok true := by
  rcases hr : compressJpeg envBig30Enc10 [("a.jpeg", Bytes.fileB 0)] "a.jpeg"
      20 false with e | z
  · exact absurd hr (by cases e <;> decide)
  · obtain ⟨-, -, h3⟩ :=
      compressJpeg_single_source envBig30Enc10 [("a.jpeg", Bytes.fileB 0)]
        "a.jpeg" 20 false (Bytes.fileB 0) (by decide) z.1 z.2.1 z.2.2
        (by rw [hr])
    simp [Except.map, h3]

/-! ### Claim C9: batch partial-failure isolation -/

theorem convertToJpeg_name (fs : FS) (p : String) (ad : Bool) (q : String)
    (fs2 : FS) (tr : List Event)
    (h : convertToJpeg fs p ad = Except.ok (q, fs2, tr)) :
    canonicalJpegName p = some q := by
  simp only [convertToJpeg] at h
  rcases hf : findExtStr p with _ | f
  · rw [hf] at h
    exact Except.noConfusion h
  · rw [hf] at h
    dsimp only [] at h
    by_cases hj : f = ".jpeg" ∨ f = ".jpg"
    · rw [if_pos hj] at h
      injection h with h2
      have hq : p = q := congrArg (fun z => z.1) h2
      simp only [canonicalJpegName, hf]
      rw [if_pos hj]
      exact congrArg some hq
    · rw [if_neg hj] at h
      rcases hl : fsLookup fs p with _ | data
      · rw [hl] at h
        exact Except.noConfusion h
      · rw [hl] at h
        dsimp only [] at h
        cases ad with
        | false =>
          simp only [Bool.false_eq_true, if_false] at h
          injection h with h2
          have hq : replaceFirstStr p f ".jpeg" = q := congrArg (fun z => z.1) h2
          simp only [canonicalJpegName, hf]
          rw [if_neg hj]
          exact congrArg some hq
        | true =>
          rw [if_pos rfl] at h
          rcases hu : fsUnlinkE
              (fsWrite fs (replaceFirstStr p f ".jpeg")
                (Bytes.jpegEnc data 100)) p with e | fs3
          · rw [hu] at h
            exact Except.noConfusion h
          · rw [hu] at h
            injection h with h2
            have hq : replaceFirstStr p f ".jpeg" = q :=
              congrArg (fun z => z.1) h2
            simp only [canonicalJpegName, hf]
            rw [if_neg hj]
            exact congrArg some hq

theorem optimizeOne_some (env : Env) (mw mh ms : ℚ) (fs : FS) (p jp : String)
    (fs4 : FS) (h : optimizeOne env mw mh ms fs p = (some jp, fs4)) :
    canonicalJpegName p = some jp := by
  simp only [optimizeOne] at h
  rcases hc : convertToJpeg fs p true with e | ⟨jpegPath, fs1, tr1⟩
  · rw [hc] at h
    simp at h
  · rw [hc] at h
    dsimp only [] at h
    rcases hrz : resizePreservingAspectRatio env fs1 jpegPath mw mh true
        with e | ⟨rp, fs2, tr2⟩
    · rw [hrz] at h
      simp at h
    · rw [hrz] at h
      dsimp only [] at h
      rcases hcp : compressJpeg env fs2 rp ms true with e | ⟨cp, fs3, tr3⟩
      · rw [hcp] at h
        simp at h
      · rw [hcp] at h
        dsimp only [] at h
        rcases hrn : fsRenameE fs3 cp jpegPath with e | fs5
        · rw [hrn] at h
          simp at h
        · rw [hrn] at h
          dsimp only [] at h
          have hjp : jpegPath = jp := by
            have := congrArg (fun z => z.1) h
            simpa using this
          exact hjp ▸ convertToJpeg_name fs p true jpegPath fs1 tr1 hc

/-- Claim C9: `optimizeImages` is total (the batch call never raises — its
return type is a plain value, every per-item failure being caught), its
result list is exactly the per-item outcomes with the failed items omitted
and the relative order of the successes preserved, and every returned path
is the item's canonical JPEG path (the convert-stage `jpegPath`, to which
the compressed file is renamed). -/
theorem optimizeImages_batch_isolation (env : Env) (mw mh ms : ℚ) :
    ∀ (fs : FS) (paths : List String),
      (optimizeImages env mw mh ms fs paths).1
        = (itemOutcomes env mw mh ms fs paths).filterMap id ∧
      List.Forall₂ (fun p o => ∀ s, o = some s → canonicalJpegName p = some s)
        paths (itemOutcomes env mw mh ms fs paths) := by
  intro fs paths
  induction paths generalizing fs with
  | nil => exact ⟨rfl, List.Forall₂.nil⟩
  | cons p rest ih =>
    rcases ho : optimizeOne env mw mh ms fs p with ⟨o, fs1⟩
    have hout : itemOutcomes env mw mh ms fs (p :: rest)
        = o :: itemOutcomes env mw mh ms fs1 rest := by
      simp [itemOutcomes, ho]
    cases o with
    | some jp =>
      have hopt : (optimizeImages env mw mh ms fs (p :: rest)).1
          = jp :: (optimizeImages env mw mh ms fs1 rest).1 := by
        simp [optimizeImages, ho]
      refine ⟨?_, ?_⟩
      · rw [hopt, hout, List.filterMap_cons]
        simpa using (ih fs1).1
      · rw [hout]
        refine List.Forall₂.cons ?_ (ih fs1).2
        intro s hs
        injection hs with hs
        exact hs ▸ optimizeOne_some env mw mh ms fs p jp fs1 ho
    | none =>
      have hopt : (optimizeImages env mw mh ms fs (p :: rest)).1
          = (optimizeImages env mw mh ms fs1 rest).1 := by
        simp [optimizeImages, ho]
      refine ⟨?_, ?_⟩
      · rw [hopt, hout, List.filterMap_cons]
        simpa using (ih fs1).1
      · rw [hout]
        exact List.Forall₂.cons (by simp) (ih fs1).2

/-- A codec environment where every image decodes to 10×10 pixels and
every contents term has size 5. -/
def envAll5 : Env :=
  { byteSize := fun _ => 5, pixelDims := fun _ => some (10, 10) }

/-- A two-file filesystem for the batch witness; "missing.png" is absent. -/
def fsBatch : FS := [("a.png", Bytes.fileB 0), ("c.jpg", Bytes.fileB 2)]

/-- Witness for C9: of three items the middle one fails (missing file);
the batch returns the two canonical jpeg paths, in order, and equals the
filtered per-item outcomes. -/
theorem optimizeImages_batch_isolation_wit :
    (optimizeImages envAll5 100 100 50 fsBatch
        ["a.png", "missing.png", "c.jpg"]).1 = ["a.jpeg", "c.jpg"] ∧
    (optimizeImages envAll5 100 100 50 fsBatch
        ["a.png", "missing.png", "c.jpg"]).1
      = (itemOutcomes envAll5 100 100 50 fsBatch
          ["a.png", "missing.png", "c.jpg"]).filterMap id :=
  ⟨by decide,
   (optimizeImages_batch_isolation envAll5 100 100 50 fsBatch
      ["a.png", "missing.png", "c.jpg"]).1⟩

end ImgOpt
